import Mathlib

/-
Verification of the utility module `pcdet/utils/transform_utils.py`.

The module contains three numeric routines over batched float tensors:
  * `project_to_image` : projects 3D points into an image plane with a 3x4
    projection matrix (a broadcast path and a batched-matmul path),
  * `normalize_coords` : rescales grid coordinates into [-1, 1] after
    reversing the grid-shape vector,
  * `bin_depths`       : discretizes a depth map into bin indices under one of
    three laws (UD / LID / SID), optionally clamping and truncating for use
    as an integer training target.

Tensor elements are modelled by `PFloat`: a finite real number or one of the
IEEE special values NaN / +Inf / -Inf, with the elementwise torch semantics
of the operations the module uses (subtraction, scalar multiply, division,
square root, natural log, comparisons, finiteness test, integer-truncating
cast).  Scalar (Python-level) failures - `raise NotImplementedError`, a
Python `ZeroDivisionError` from the scalar `bin_size` computation, and the
`ValueError` that `math.log` raises on a non-positive argument - are
modelled with `Except`.  In-place tensor writes are modelled separately with
an explicit store (`Store`, `bin_depthsS`).
-/

namespace TransformUtils

/-- Element of a float tensor: a finite real value or one of the IEEE special
values NaN, +Inf, -Inf. -/
inductive PFloat where
  | fin (x : ℝ)
  | nan
  | inf
  | ninf

/-- Failure modes of the module: `NotImplementedError` for an unsupported
binning mode (transform_utils.py line 94), Python `ZeroDivisionError` from a
scalar division by zero, `ValueError` from `math.log` on a non-positive
argument, and a tensor shape mismatch raised by `torch.bmm`. -/
inductive PErr where
  | notImplemented
  | zeroDivision
  | domainError
  | shapeMismatch
deriving DecidableEq

/-- Tensor-scalar subtraction `t - c` (elementwise, torch semantics: the
special values absorb a finite subtrahend). -/
noncomputable def PFloat.subC : PFloat → ℝ → PFloat
  | .fin x, c => .fin (x - c)
  | .nan, _ => .nan
  | .inf, _ => .inf
  | .ninf, _ => .ninf

/-- Scalar-tensor addition `c + t` (elementwise, torch semantics). -/
noncomputable def PFloat.cadd (c : ℝ) : PFloat → PFloat
  | .fin x => .fin (c + x)
  | .nan => .nan
  | .inf => .inf
  | .ninf => .ninf

/-- Tensor-scalar addition `t + c` (elementwise, torch semantics). -/
noncomputable def PFloat.addC (p : PFloat) (c : ℝ) : PFloat :=
  PFloat.cadd c p

/-- Scalar-tensor multiplication `c * t` (elementwise, torch semantics:
a zero scalar times an infinity is NaN). -/
noncomputable def PFloat.cmul (c : ℝ) : PFloat → PFloat
  | .fin x => .fin (c * x)
  | .nan => .nan
  | .inf => if 0 < c then .inf else if c < 0 then .ninf else .nan
  | .ninf => if 0 < c then .ninf else if c < 0 then .inf else .nan

/-- Tensor-scalar multiplication `t * c` (elementwise, torch semantics). -/
noncomputable def PFloat.mulC (p : PFloat) (c : ℝ) : PFloat :=
  PFloat.cmul c p

/-- Tensor-scalar division `t / c` (elementwise, torch semantics: a nonzero
finite value divided by zero gives a signed infinity, zero divided by zero
gives NaN, an infinity divided by a finite value keeps or flips its sign). -/
noncomputable def PFloat.divC : PFloat → ℝ → PFloat
  | .fin x, c =>
      if c = 0 then (if x = 0 then .nan else if 0 < x then .inf else .ninf)
      else .fin (x / c)
  | .nan, _ => .nan
  | .inf, c => if c < 0 then .ninf else .inf
  | .ninf, c => if c < 0 then .inf else .ninf

/-- Elementwise `torch.sqrt`: NaN on a negative finite argument and on -Inf. -/
noncomputable def PFloat.sqrt : PFloat → PFloat
  | .fin x => if x < 0 then .nan else .fin (Real.sqrt x)
  | .nan => .nan
  | .inf => .inf
  | .ninf => .nan

/-- Elementwise `torch.log`: -Inf at zero, NaN on a negative finite argument
and on -Inf. -/
noncomputable def PFloat.log : PFloat → PFloat
  | .fin x => if 0 < x then .fin (Real.log x) else if x = 0 then .ninf else .nan
  | .nan => .nan
  | .inf => .inf
  | .ninf => .nan

/-- torch elementwise `<` against a scalar; NaN compares false. -/
def PFloat.ltR : PFloat → ℝ → Prop
  | .fin x, c => x < c
  | .nan, _ => False
  | .inf, _ => False
  | .ninf, _ => True

/-- torch elementwise `>` against a scalar; NaN compares false. -/
def PFloat.gtR : PFloat → ℝ → Prop
  | .fin x, c => c < x
  | .nan, _ => False
  | .inf, _ => True
  | .ninf, _ => False

/-- `torch.isfinite`, elementwise. -/
def PFloat.isFinite : PFloat → Prop
  | .fin _ => True
  | .nan => False
  | .inf => False
  | .ninf => False

/-- torch elementwise `<=` between tensor elements; any comparison involving
NaN is false. -/
def PFloat.leP : PFloat → PFloat → Prop
  | .fin x, .fin y => x ≤ y
  | .fin _, .inf => True
  | .ninf, .fin _ => True
  | .ninf, .inf => True
  | .inf, .inf => True
  | .ninf, .ninf => True
  | _, _ => False

/-- The `.type(torch.int64)` cast: truncation toward zero on finite values.
Its behaviour on non-finite values is unspecified in torch; the module only
ever applies it after the target mask has replaced every non-finite entry, so
the value used for those cases here (zero) is never observable. -/
noncomputable def PFloat.truncInt : PFloat → ℤ
  | .fin x => if 0 ≤ x then ⌊x⌋ else ⌈x⌉
  | .nan => 0
  | .inf => 0
  | .ninf => 0

/-- UD elementwise index (transform_utils.py lines 84-86):
`bin_size = (depth_max - depth_min) / num_bins`;
`indices = (depth_map - depth_min) / bin_size`. -/
noncomputable def udElem (depth_min depth_max : ℝ) (num_bins : ℕ) (p : PFloat) : PFloat :=
  let bin_size : ℝ := (depth_max - depth_min) / num_bins
  (p.subC depth_min).divC bin_size

/-- LID elementwise index (transform_utils.py lines 87-89):
`bin_size = 2 * (depth_max - depth_min) / (num_bins * (1 + num_bins))`;
`indices = -0.5 + 0.5 * torch.sqrt(1 + 8 * (depth_map - depth_min) / bin_size)`. -/
noncomputable def lidElem (depth_min depth_max : ℝ) (num_bins : ℕ) (p : PFloat) : PFloat :=
  let bin_size : ℝ := 2 * (depth_max - depth_min) / (num_bins * (1 + num_bins))
  PFloat.cadd (-0.5)
    (PFloat.cmul 0.5
      (PFloat.sqrt (PFloat.cadd 1 ((PFloat.cmul 8 (p.subC depth_min)).divC bin_size))))

/-- SID elementwise index (transform_utils.py lines 90-92):
`indices = num_bins * (torch.log(1 + depth_map) - math.log(1 + depth_min))
           / (math.log(1 + depth_max) - math.log(1 + depth_min))`. -/
noncomputable def sidElem (depth_min depth_max : ℝ) (num_bins : ℕ) (p : PFloat) : PFloat :=
  (PFloat.cmul num_bins ((PFloat.cadd 1 p).log.subC (Real.log (1 + depth_min)))).divC
    (Real.log (1 + depth_max) - Real.log (1 + depth_min))

/-- The mode dispatch of `bin_depths` (transform_utils.py lines 84-94),
producing the raw (pre-mask) index tensor.  The scalar-level failures of each
branch are explicit: `num_bins = 0` makes the Python scalar `bin_size`
division raise `ZeroDivisionError` in the UD and LID branches, and a
non-positive argument makes the scalar `math.log` calls of the SID branch
raise `ValueError`; an unrecognized mode raises `NotImplementedError`. -/
noncomputable def rawIndices (mode : String) (depth_min depth_max : ℝ) (num_bins : ℕ)
    (depth_map : List PFloat) : Except PErr (List PFloat) :=
  if mode = "UD" then
    if num_bins = 0 then .error .zeroDivision
    else .ok (depth_map.map (udElem depth_min depth_max num_bins))
  else if mode = "LID" then
    if num_bins = 0 then .error .zeroDivision
    else .ok (depth_map.map (lidElem depth_min depth_max num_bins))
  else if mode = "SID" then
    if 0 < 1 + depth_min ∧ 0 < 1 + depth_max then
      .ok (depth_map.map (sidElem depth_min depth_max num_bins))
    else .error .domainError
  else .error .notImplemented

open Classical in
/-- The in-place masked fill of the target branch (transform_utils.py lines
96-99): `mask = (indices < 0) | (indices > num_bins) | (~torch.isfinite(indices))`;
`indices[mask] = num_bins`. -/
noncomputable def maskedFill (num_bins : ℕ) (indices : List PFloat) : List PFloat :=
  indices.map (fun p =>
    if p.ltR 0 ∨ p.gtR (num_bins : ℝ) ∨ ¬ p.isFinite then .fin (num_bins : ℝ) else p)

/-- The integer cast of the target branch (transform_utils.py line 102):
`indices = indices.type(torch.int64)`. -/
noncomputable def castInt64 (indices : List PFloat) : List ℤ :=
  indices.map PFloat.truncInt

/-- `bin_depths(depth_map, mode, depth_min, depth_max, num_bins, target)`
(transform_utils.py lines 68-103).  The result is the raw float index tensor
(`Sum.inl`) when `target=False`, and the masked, integer-cast index tensor
(`Sum.inr`) when `target=True`. -/
noncomputable def bin_depths (depth_map : List PFloat) (mode : String)
    (depth_min depth_max : ℝ) (num_bins : ℕ) (target : Bool) :
    Except PErr (List PFloat ⊕ List ℤ) :=
  match rawIndices mode depth_min depth_max num_bins depth_map with
  | .error e => .error e
  | .ok indices =>
      if target then .ok (.inr (castInt64 (maskedFill num_bins indices)))
      else .ok (.inl indices)

/-- Documented closed form for UD (spec section 4.3):
`bin_size = (depth_max - depth_min)/num_bins`; `index = (depth - depth_min)/bin_size`. -/
noncomputable def spec_ud_index (depth_min depth_max : ℝ) (num_bins : ℕ) (d : ℝ) : ℝ :=
  (d - depth_min) / ((depth_max - depth_min) / num_bins)

/-- Documented closed form for LID (spec section 4.3):
`bin_size = 2*(depth_max - depth_min)/(num_bins*(num_bins+1))`;
`index = -0.5 + 0.5*sqrt(1 + 8*(depth - depth_min)/bin_size)`. -/
noncomputable def spec_lid_index (depth_min depth_max : ℝ) (num_bins : ℕ) (d : ℝ) : ℝ :=
  -0.5 + 0.5 * Real.sqrt (1 + 8 * (d - depth_min) /
    (2 * (depth_max - depth_min) / (num_bins * (num_bins + 1))))

/-- Documented closed form for SID (spec section 4.3):
`index = num_bins * (ln(1+depth) - ln(1+depth_min)) / (ln(1+depth_max) - ln(1+depth_min))`. -/
noncomputable def spec_sid_index (depth_min depth_max : ℝ) (num_bins : ℕ) (d : ℝ) : ℝ :=
  num_bins * (Real.log (1 + d) - Real.log (1 + depth_min)) /
    (Real.log (1 + depth_max) - Real.log (1 + depth_min))

open Classical in
/-- The spec's elementwise description of the `target=True` post-processing
(spec section 4.3): an entry whose raw index is below 0, above `num_bins`, or
non-finite becomes exactly `num_bins`; every entry is truncated (not rounded)
to an integer. -/
noncomputable def specTargetElem (num_bins : ℕ) : PFloat → ℤ
  | .fin x => if x < 0 ∨ (num_bins : ℝ) < x then (num_bins : ℤ) else (PFloat.fin x).truncInt
  | .nan => (num_bins : ℤ)
  | .inf => (num_bins : ℤ)
  | .ninf => (num_bins : ℤ)

/-- `torch.flip(shape, dims=[0])` on a 3-element shape vector: index reversal. -/
def flip3 : Fin 3 → Fin 3 := ![2, 1, 0]

/-- One coordinate triple of `normalize_coords(coords, shape)`
(transform_utils.py lines 50-65): reverse `shape`, then
`coords / (shape - 1) * (max_n - min_n) + min_n` with `min_n = -1`, `max_n = 1`,
broadcasting the reversed shape against the last axis of `coords`. -/
noncomputable def normalize_coordsVec (coords : Fin 3 → PFloat) (shape : Fin 3 → ℝ) :
    Fin 3 → PFloat :=
  let min_n : ℝ := -1
  let max_n : ℝ := 1
  let shape' := fun i => shape (flip3 i)
  fun i => (((coords i).divC (shape' i - 1)).mulC (max_n - min_n)).addC min_n

/-- `normalize_coords` over a batch of coordinate triples: the transform is
applied elementwise over the leading (batch) axes. -/
noncomputable def normalize_coords (coords : List (Fin 3 → PFloat)) (shape : Fin 3 → ℝ) :
    List (Fin 3 → PFloat) :=
  coords.map (fun c => normalize_coordsVec c shape)

/-- A 3x4 projection matrix. -/
abbrev Mat34 := Fin 3 → Fin 4 → ℚ

/-- `convert_points_to_homogeneous` - external collaborator, modelled from the
spec's external-interface contract (spec section 6): append a unit coordinate. -/
def toHomog (p : Fin 3 → ℚ) : Fin 4 → ℚ :=
  fun j => if h : (j : ℕ) < 3 then p ⟨j, h⟩ else 1

/-- Matrix-vector product of a 3x4 matrix with a homogeneous 4-vector. -/
def matVec (P : Mat34) (v : Fin 4 → ℚ) : Fin 3 → ℚ :=
  fun i => ∑ j, P i j * v j

/-- `convert_points_from_homogeneous` - external collaborator, modelled from
the spec's external-interface contract (spec section 6): divide the leading
coordinates by the last and drop it. -/
def fromHomog (t : Fin 3 → ℚ) : Fin 2 → ℚ :=
  fun i => t i.castSucc / t 2

/-- `project_to_image(project, points, bmm=False)` (transform_utils.py lines
14-33, 45-47) for the canonical batched shapes: `project` of shape (B, 3, 4)
and `points` of shape (B, N, 3).  Points are made homogeneous, a trailing
singleton axis is added to the points and a broadcast axis to `project` at
axis 1, so the matrix of batch `b` multiplies every point of batch `b`; the
depth is the third coordinate of the transformed point minus
`project[..., 2, 3]`, and the image point is the homogeneous-to-Euclidean
conversion of the transformed point. -/
def project_to_image {B N : ℕ} (project : Fin B → Mat34)
    (points : Fin B → Fin N → (Fin 3 → ℚ)) :
    (Fin B → Fin N → (Fin 2 → ℚ)) × (Fin B → Fin N → ℚ) :=
  let points_h := fun b k => toHomog (points b k)
  let points_t := fun b k => matVec (project b) (points_h b k)
  (fun b k => fromHomog (points_t b k), fun b k => points_t b k 2 - project b 2 3)

/-- The batched-matmul branch of `project_to_image` (`bmm=True`,
transform_utils.py lines 34-43) through the `torch.bmm` call: `points` is
already homogeneous and flattened to (B, N, 4), `project` is flattened to
(M, 3, 4) and transposed to (M, 4, 3), then repeated along its batch axis with
the Python floor-division factor `B // M` (`torch.repeat_interleave`); the
batched multiply requires the two batch counts to agree and raises a shape
error otherwise.  The value returned is the transformed point tensor
`points_t` (of shape (B, N, 3)). -/
def project_to_image_bmm (project : List Mat34) (points : List (List (Fin 4 → ℚ))) :
    Except PErr (List (List (Fin 3 → ℚ))) :=
  let repeats := points.length / project.length
  let projRep := project.flatMap (fun P => List.replicate repeats P)
  if projRep.length = points.length then
    .ok (List.zipWith (fun P row => row.map (fun v i => ∑ j, v j * P i j)) projRep points)
  else .error .shapeMismatch

/-- The unique 3x4 projection matrix whose left 3x3 block is the identity and
whose translation column is zero. -/
def idMat34 : Mat34 := fun i j => if (i : ℕ) = (j : ℕ) then 1 else 0

/-- A heap of float tensors, used to observe which buffers `bin_depths`
writes in place.  A tensor reference is an index into the heap. -/
abbrev Store := List (List PFloat)

/-- Store-level `bin_depths`: the caller's depth map lives in the store at
reference `depth_map`.  The arithmetic of every mode allocates a fresh
`indices` tensor (torch tensor arithmetic returns new tensors); the only
in-place write in the module, `indices[mask] = num_bins`, targets that fresh
tensor; the `.type(torch.int64)` cast again allocates (its result is returned
by value, the store holds only float tensors). -/
noncomputable def bin_depthsS (s : Store) (depth_map : ℕ) (mode : String)
    (depth_min depth_max : ℝ) (num_bins : ℕ) (target : Bool) :
    Except PErr (Store × (List PFloat ⊕ List ℤ)) :=
  match rawIndices mode depth_min depth_max num_bins (s.getD depth_map []) with
  | .error e => .error e
  | .ok indices =>
      let s1 := s ++ [indices]
      let r := s.length
      if target then
        let s2 := s1.set r (maskedFill num_bins (s1.getD r []))
        .ok (s2, .inr (castInt64 (s2.getD r [])))
      else .ok (s1, .inl (s1.getD r []))

/-- Modes accepted by the dispatch of `bin_depths`. -/
def supportedModes : List String := ["UD", "LID", "SID"]

theorem PFloat.subC_fin (x c : ℝ) : (PFloat.fin x).subC c = .fin (x - c) := rfl

theorem PFloat.subC_nan (c : ℝ) : PFloat.nan.subC c = .nan := rfl

theorem PFloat.cadd_fin (c x : ℝ) : PFloat.cadd c (.fin x) = .fin (c + x) := rfl

theorem PFloat.addC_fin (x c : ℝ) : (PFloat.fin x).addC c = .fin (c + x) := rfl

theorem PFloat.cmul_fin (c x : ℝ) : PFloat.cmul c (.fin x) = .fin (c * x) := rfl

theorem PFloat.mulC_fin (x c : ℝ) : (PFloat.fin x).mulC c = .fin (c * x) := rfl

theorem PFloat.divC_fin (x c : ℝ) (hc : c ≠ 0) :
    (PFloat.fin x).divC c = .fin (x / c) := by
  simp [PFloat.divC, hc]

theorem PFloat.divC_nan (c : ℝ) : PFloat.nan.divC c = .nan := rfl

theorem PFloat.sqrt_fin (x : ℝ) (hx : 0 ≤ x) :
    (PFloat.fin x).sqrt = .fin (Real.sqrt x) := by
  simp [PFloat.sqrt, not_lt.mpr hx]

theorem PFloat.log_fin (x : ℝ) (hx : 0 < x) :
    (PFloat.fin x).log = .fin (Real.log x) := by
  simp [PFloat.log, hx]

theorem PFloat.truncInt_fin_nonneg (x : ℝ) (hx : 0 ≤ x) :
    (PFloat.fin x).truncInt = ⌊x⌋ := by
  simp [PFloat.truncInt, hx]

theorem udElem_fin (depth_min depth_max : ℝ) (n : ℕ) (h1 : depth_min < depth_max)
    (h2 : 1 ≤ n) (d : ℝ) :
    udElem depth_min depth_max n (.fin d) = .fin (spec_ud_index depth_min depth_max n d) := by
  have hn : (0:ℝ) < n := by exact_mod_cast Nat.pos_of_ne_zero (by omega)
  have hsub : (0:ℝ) < depth_max - depth_min := by linarith
  have hbs : (depth_max - depth_min) / (n : ℝ) ≠ 0 := ne_of_gt (div_pos hsub hn)
  rw [udElem, PFloat.subC_fin, PFloat.divC_fin _ _ hbs, spec_ud_index]

theorem udElem_nan (depth_min depth_max : ℝ) (n : ℕ) :
    udElem depth_min depth_max n .nan = .nan := rfl

theorem lidElem_fin (depth_min depth_max : ℝ) (n : ℕ) (h1 : depth_min < depth_max)
    (h2 : 1 ≤ n) (d : ℝ)
    (harg : 0 ≤ 1 + 8 * (d - depth_min) / (2 * (depth_max - depth_min) / (n * (1 + n)))) :
    lidElem depth_min depth_max n (.fin d) = .fin (spec_lid_index depth_min depth_max n d) := by
  have hn : (0:ℝ) < n := by exact_mod_cast Nat.pos_of_ne_zero (by omega)
  have hsub : (0:ℝ) < depth_max - depth_min := by linarith
  have hbs : 2 * (depth_max - depth_min) / ((n : ℝ) * (1 + n)) ≠ 0 :=
    ne_of_gt (div_pos (by linarith) (mul_pos hn (by linarith)))
  rw [lidElem, PFloat.subC_fin, PFloat.cmul_fin, PFloat.divC_fin _ _ hbs, PFloat.cadd_fin,
    PFloat.sqrt_fin _ harg, PFloat.cmul_fin, PFloat.cadd_fin, spec_lid_index]
  congr 2
  ring_nf

theorem sidElem_fin (depth_min depth_max : ℝ) (n : ℕ) (h1 : depth_min < depth_max)
    (hmin : 0 < 1 + depth_min) (d : ℝ) (hd : 0 < 1 + d) :
    sidElem depth_min depth_max n (.fin d) = .fin (spec_sid_index depth_min depth_max n d) := by
  have hmax : 0 < 1 + depth_max := by linarith
  have hlt : Real.log (1 + depth_min) < Real.log (1 + depth_max) :=
    Real.log_lt_log hmin (by linarith)
  have hD : Real.log (1 + depth_max) - Real.log (1 + depth_min) ≠ 0 := by linarith
  rw [sidElem, PFloat.cadd_fin, PFloat.log_fin _ hd, PFloat.subC_fin, PFloat.cmul_fin,
    PFloat.divC_fin _ _ hD, spec_sid_index]

theorem rawIndices_UD (depth_min depth_max : ℝ) (n : ℕ) (dm : List PFloat) (hn : n ≠ 0) :
    rawIndices "UD" depth_min depth_max n dm = .ok (dm.map (udElem depth_min depth_max n)) := by
  rw [rawIndices, if_pos rfl, if_neg hn]

theorem rawIndices_LID (depth_min depth_max : ℝ) (n : ℕ) (dm : List PFloat) (hn : n ≠ 0) :
    rawIndices "LID" depth_min depth_max n dm = .ok (dm.map (lidElem depth_min depth_max n)) := by
  rw [rawIndices, if_neg (by decide), if_pos rfl, if_neg hn]

theorem rawIndices_SID (depth_min depth_max : ℝ) (n : ℕ) (dm : List PFloat)
    (hmin : 0 < 1 + depth_min) (hmax : 0 < 1 + depth_max) :
    rawIndices "SID" depth_min depth_max n dm = .ok (dm.map (sidElem depth_min depth_max n)) := by
  rw [rawIndices, if_neg (by decide), if_neg (by decide), if_pos rfl, if_pos ⟨hmin, hmax⟩]

theorem bin_depths_of_raw_false (dm : List PFloat) (mode : String) (depth_min depth_max : ℝ)
    (n : ℕ) (raw : List PFloat) (h : rawIndices mode depth_min depth_max n dm = .ok raw) :
    bin_depths dm mode depth_min depth_max n false = .ok (.inl raw) := by
  rw [bin_depths, h]
  rfl

theorem bin_depths_of_raw_true (dm : List PFloat) (mode : String) (depth_min depth_max : ℝ)
    (n : ℕ) (raw : List PFloat) (h : rawIndices mode depth_min depth_max n dm = .ok raw) :
    bin_depths dm mode depth_min depth_max n true
      = .ok (.inr (castInt64 (maskedFill n raw))) := by
  rw [bin_depths, h]
  rfl

theorem bin_depths_of_raw_error (dm : List PFloat) (mode : String) (depth_min depth_max : ℝ)
    (n : ℕ) (e : PErr) (h : rawIndices mode depth_min depth_max n dm = .error e) :
    bin_depths dm mode depth_min depth_max n true = .error e
    ∧ bin_depths dm mode depth_min depth_max n false = .error e := by
  constructor <;> rw [bin_depths, h]

theorem truncInt_natCast (n : ℕ) : (PFloat.fin (n : ℝ)).truncInt = (n : ℤ) := by
  rw [PFloat.truncInt_fin_nonneg _ (by positivity), Int.floor_natCast]

theorem castInt64_maskedFill (n : ℕ) (l : List PFloat) :
    castInt64 (maskedFill n l) = l.map (specTargetElem n) := by
  rw [castInt64, maskedFill, List.map_map]
  refine List.map_congr_left fun p _ => ?_
  cases p with
  | fin x =>
      by_cases hx : x < 0 ∨ (n : ℝ) < x
      · simp only [Function.comp_apply, PFloat.ltR, PFloat.gtR, PFloat.isFinite, not_true,
          or_false, specTargetElem, if_pos hx]
        exact truncInt_natCast n
      · simp only [Function.comp_apply, PFloat.ltR, PFloat.gtR, PFloat.isFinite, not_true,
          or_false, specTargetElem, if_neg hx]
  | nan =>
      simp only [Function.comp_apply, PFloat.ltR, PFloat.gtR, PFloat.isFinite, not_false_iff,
        false_or, if_pos trivial, specTargetElem]
      exact truncInt_natCast n
  | inf =>
      simp only [Function.comp_apply, PFloat.ltR, PFloat.gtR, PFloat.isFinite, specTargetElem,
        if_pos (Or.inr (Or.inl trivial))]
      exact truncInt_natCast n
  | ninf =>
      simp only [Function.comp_apply, PFloat.ltR, PFloat.gtR, PFloat.isFinite, specTargetElem,
        if_pos (Or.inl trivial)]
      exact truncInt_natCast n

/-- C1: for every depth map and mode in UD / LID / SID (with
`depth_min < depth_max` and `num_bins >= 1`), the value `bin_depths` computes
before any target masking equals the documented closed form of that mode,
applied elementwise.  The closed-form hypotheses that are implicit in the
documented formulas are made explicit where the real-valued formula is only
defined on a sub-domain: for LID the square-root argument must be
non-negative (below it, the tensor value is NaN and the mathematical formula
is undefined), and for SID the logarithms' arguments must be positive (the
scalar `math.log` calls raise otherwise, and `torch.log` of a non-positive
entry is NaN or -Inf). -/
theorem bin_depths_matches_closed_forms (depth_min depth_max : ℝ) (num_bins : ℕ)
    (h1 : depth_min < depth_max) (h2 : 1 ≤ num_bins) :
    (∀ dm : List ℝ, bin_depths (dm.map .fin) "UD" depth_min depth_max num_bins false
        = .ok (.inl (dm.map fun d => .fin (spec_ud_index depth_min depth_max num_bins d))))
    ∧ (∀ dm : List ℝ,
        (∀ d ∈ dm, 0 ≤ 1 + 8 * (d - depth_min) /
          (2 * (depth_max - depth_min) / (num_bins * (1 + num_bins)))) →
        bin_depths (dm.map .fin) "LID" depth_min depth_max num_bins false
        = .ok (.inl (dm.map fun d => .fin (spec_lid_index depth_min depth_max num_bins d))))
    ∧ (-1 < depth_min → ∀ dm : List ℝ, (∀ d ∈ dm, 0 < 1 + d) →
        bin_depths (dm.map .fin) "SID" depth_min depth_max num_bins false
        = .ok (.inl (dm.map fun d => .fin (spec_sid_index depth_min depth_max num_bins d)))) := by
  refine ⟨fun dm => ?_, fun dm harg => ?_, fun hmin dm hd => ?_⟩
  · rw [bin_depths_of_raw_false _ _ _ _ _ _ (rawIndices_UD _ _ _ _ (by omega))]
    rw [List.map_map]
    exact congrArg (fun l => Except.ok (Sum.inl l))
      (List.map_congr_left fun d _ => udElem_fin _ _ _ h1 h2 d)
  · rw [bin_depths_of_raw_false _ _ _ _ _ _ (rawIndices_LID _ _ _ _ (by omega))]
    rw [List.map_map]
    exact congrArg (fun l => Except.ok (Sum.inl l))
      (List.map_congr_left fun d hdm => lidElem_fin _ _ _ h1 h2 d (harg d hdm))
  · rw [bin_depths_of_raw_false _ _ _ _ _ _
      (rawIndices_SID _ _ _ _ (by linarith) (by linarith))]
    rw [List.map_map]
    exact congrArg (fun l => Except.ok (Sum.inl l))
      (List.map_congr_left fun d hdm => sidElem_fin _ _ _ h1 (by linarith) d (hd d hdm))

/-- Witness for C1 at `depth_min = 0`, `depth_max = 1`, `num_bins = 1`,
singleton depth map `[0]`. -/
theorem bin_depths_matches_closed_forms_witness :
    ((0:ℝ) < 1 ∧ (1:ℕ) ≤ 1)
    ∧ bin_depths [.fin 0] "UD" 0 1 1 false = .ok (.inl [.fin (spec_ud_index 0 1 1 0)])
    ∧ bin_depths [.fin 0] "LID" 0 1 1 false = .ok (.inl [.fin (spec_lid_index 0 1 1 0)])
    ∧ bin_depths [.fin 0] "SID" 0 1 1 false = .ok (.inl [.fin (spec_sid_index 0 1 1 0)]) := by
  have h := bin_depths_matches_closed_forms 0 1 1 (by norm_num) (by norm_num)
  refine ⟨⟨by norm_num, by norm_num⟩, ?_, ?_, ?_⟩
  · simpa using h.1 [0]
  · have := h.2.1 [0] (by intro d hd; simp at hd; subst hd; norm_num)
    simpa using this
  · have := h.2.2 (by norm_num) [0] (by intro d hd; simp at hd; subst hd; norm_num)
    simpa using this

/-- C2: for every supported mode (equivalently, whenever the dispatch
produced a raw index tensor), `target=True` maps each raw entry that is
below 0, above `num_bins`, or non-finite to exactly `num_bins` and truncates
(not rounds) every entry to integer type, and `target=False` returns the raw
elementwise values unmodified, including fractional, out-of-range and
non-finite entries. -/
theorem bin_depths_target_clamps (dm : List PFloat) (mode : String)
    (depth_min depth_max : ℝ) (num_bins : ℕ) (raw : List PFloat)
    (h : rawIndices mode depth_min depth_max num_bins dm = .ok raw) :
    bin_depths dm mode depth_min depth_max num_bins true
      = .ok (.inr (raw.map (specTargetElem num_bins)))
    ∧ bin_depths dm mode depth_min depth_max num_bins false = .ok (.inl raw) := by
  refine ⟨?_, bin_depths_of_raw_false _ _ _ _ _ _ h⟩
  rw [bin_depths_of_raw_true _ _ _ _ _ _ h, castInt64_maskedFill]

/-- Witness for C2: mode UD, `depth_min = 0`, `depth_max = 10`, `num_bins = 5`,
depth map `[2.5, -1, NaN]`, raw indices `[1.25, -0.5, NaN]`; the target output
truncates `1.25` to `1` and clamps the out-of-range and NaN entries to `5`. -/
theorem bin_depths_target_clamps_witness :
    rawIndices "UD" 0 10 5 [.fin 2.5, .fin (-1), .nan]
      = .ok [.fin 1.25, .fin (-0.5), .nan]
    ∧ bin_depths [.fin 2.5, .fin (-1), .nan] "UD" 0 10 5 true
      = .ok (.inr ([PFloat.fin 1.25, PFloat.fin (-0.5), PFloat.nan].map (specTargetElem 5))) := by
  have hraw : rawIndices "UD" 0 10 5 [.fin 2.5, .fin (-1), .nan]
      = .ok [.fin 1.25, .fin (-0.5), .nan] := by
    rw [rawIndices_UD _ _ _ _ (by norm_num)]
    rw [List.map_cons, List.map_cons, List.map_cons, List.map_nil]
    rw [udElem_fin _ _ _ (by norm_num) (by norm_num), udElem_fin _ _ _ (by norm_num) (by norm_num),
      udElem_nan]
    rw [spec_ud_index, spec_ud_index]
    norm_num
  exact ⟨hraw, (bin_depths_target_clamps _ _ _ _ _ _ hraw).1⟩

/-- C3: a mode outside UD / LID / SID makes `bin_depths` raise the
unsupported-mode error immediately (no value, no partial computation, no
default discretization), and a mode inside the set never raises that error. -/
theorem bin_depths_unsupported_mode (dm : List PFloat) (mode : String)
    (depth_min depth_max : ℝ) (num_bins : ℕ) (target : Bool) :
    (mode ∉ supportedModes →
      bin_depths dm mode depth_min depth_max num_bins target = .error .notImplemented)
    ∧ (mode ∈ supportedModes →
      bin_depths dm mode depth_min depth_max num_bins target ≠ .error .notImplemented) := by
  constructor
  · intro hmode
    have hud : mode ≠ "UD" := by intro h; exact hmode (by rw [h]; simp [supportedModes])
    have hlid : mode ≠ "LID" := by intro h; exact hmode (by rw [h]; simp [supportedModes])
    have hsid : mode ≠ "SID" := by intro h; exact hmode (by rw [h]; simp [supportedModes])
    have hraw : rawIndices mode depth_min depth_max num_bins dm = .error .notImplemented := by
      rw [rawIndices, if_neg hud, if_neg hlid, if_neg hsid]
    cases target
    · exact (bin_depths_of_raw_error _ _ _ _ _ _ hraw).2
    · exact (bin_depths_of_raw_error _ _ _ _ _ _ hraw).1
  · intro hmode
    have hcases : mode = "UD" ∨ mode = "LID" ∨ mode = "SID" := by
      simpa [supportedModes] using hmode
    have hraw : rawIndices mode depth_min depth_max num_bins dm ≠ .error .notImplemented := by
      rcases hcases with h | h | h <;> subst h <;> rw [rawIndices]
      · rw [if_pos rfl]
        by_cases hn : num_bins = 0
        · rw [if_pos hn]; simp
        · rw [if_neg hn]; simp
      · rw [if_neg (by decide), if_pos rfl]
        by_cases hn : num_bins = 0
        · rw [if_pos hn]; simp
        · rw [if_neg hn]; simp
      · rw [if_neg (by decide), if_neg (by decide), if_pos rfl]
        by_cases hc : 0 < 1 + depth_min ∧ 0 < 1 + depth_max
        · rw [if_pos hc]; simp
        · rw [if_neg hc]; simp
    rw [bin_depths]
    cases hr : rawIndices mode depth_min depth_max num_bins dm with
    | error e =>
        intro hcontra
        exact hraw (by rw [hr]; simpa using hcontra)
    | ok raw => cases target <;> simp

/-- Witness for C3: the unsupported mode string `"XYZ"` errors, and the
supported mode `"UD"` does not raise the unsupported-mode error. -/
theorem bin_depths_unsupported_mode_witness :
    ("XYZ" ∉ supportedModes
      ∧ bin_depths [] "XYZ" 0 1 1 false = .error .notImplemented)
    ∧ ("UD" ∈ supportedModes
      ∧ bin_depths [] "UD" 0 1 1 false ≠ .error .notImplemented) := by
  constructor
  · have hm : "XYZ" ∉ supportedModes := by decide
    exact ⟨hm, (bin_depths_unsupported_mode [] "XYZ" 0 1 1 false).1 hm⟩
  · have hm : "UD" ∈ supportedModes := by decide
    exact ⟨hm, (bin_depths_unsupported_mode [] "UD" 0 1 1 false).2 hm⟩

theorem spec_ud_index_at_min (depth_min depth_max : ℝ) (n : ℕ) :
    spec_ud_index depth_min depth_max n depth_min = 0 := by
  simp [spec_ud_index]

theorem spec_ud_index_at_max (depth_min depth_max : ℝ) (n : ℕ)
    (h1 : depth_min < depth_max) (h2 : 1 ≤ n) :
    spec_ud_index depth_min depth_max n depth_max = n := by
  have hn : (0:ℝ) < n := by exact_mod_cast Nat.pos_of_ne_zero (by omega)
  have hsub : (0:ℝ) < depth_max - depth_min := by linarith
  rw [spec_ud_index]
  field_simp

theorem spec_lid_index_at_min (depth_min depth_max : ℝ) (n : ℕ) :
    spec_lid_index depth_min depth_max n depth_min = 0 := by
  rw [spec_lid_index, sub_self]
  norm_num

theorem spec_lid_arg_at_max (depth_min depth_max : ℝ) (n : ℕ)
    (h1 : depth_min < depth_max) (h2 : 1 ≤ n) :
    1 + 8 * (depth_max - depth_min) / (2 * (depth_max - depth_min) / ((n : ℝ) * (1 + n)))
      = (2 * n + 1) ^ 2 := by
  have hn : (0:ℝ) < n := by exact_mod_cast Nat.pos_of_ne_zero (by omega)
  have hsub : (0:ℝ) < depth_max - depth_min := by linarith
  have hnn : ((n : ℝ) * (1 + n)) ≠ 0 := ne_of_gt (mul_pos hn (by linarith))
  field_simp
  ring

theorem spec_lid_index_at_max (depth_min depth_max : ℝ) (n : ℕ)
    (h1 : depth_min < depth_max) (h2 : 1 ≤ n) :
    spec_lid_index depth_min depth_max n depth_max = n := by
  rw [spec_lid_index]
  have harg : 8 * (depth_max - depth_min) /
      (2 * (depth_max - depth_min) / ((n : ℝ) * (n + 1)))
      = (2 * n + 1) ^ 2 - 1 := by
    have := spec_lid_arg_at_max depth_min depth_max n h1 h2
    have hcomm : (n : ℝ) * (n + 1) = (n : ℝ) * (1 + n) := by ring
    rw [hcomm]
    linarith
  rw [harg]
  have : (1 : ℝ) + ((2 * n + 1) ^ 2 - 1) = (2 * n + 1) ^ 2 := by ring
  rw [this, Real.sqrt_sq (by positivity)]
  ring

theorem spec_sid_index_at_min (depth_min depth_max : ℝ) (n : ℕ) :
    spec_sid_index depth_min depth_max n depth_min = 0 := by
  simp [spec_sid_index]

theorem spec_sid_index_at_max (depth_min depth_max : ℝ) (n : ℕ)
    (h1 : depth_min < depth_max) (hmin : 0 < 1 + depth_min) :
    spec_sid_index depth_min depth_max n depth_max = n := by
  have hlt : Real.log (1 + depth_min) < Real.log (1 + depth_max) :=
    Real.log_lt_log hmin (by linarith)
  have hD : Real.log (1 + depth_max) - Real.log (1 + depth_min) ≠ 0 := by linarith
  rw [spec_sid_index, mul_div_assoc, div_self hD, mul_one]

/-- C6 amended: with `depth_min < depth_max` and `num_bins >= 1`, a depth
entry equal to `depth_min` maps to raw bin index 0 and one equal to
`depth_max` maps to raw bin index `num_bins`, exactly, for UD and LID; for
SID the same holds under the additional hypothesis `depth_min > -1`, without
which the scalar `math.log(1 + depth_min)` call raises and `bin_depths`
returns no value at all.  For UD the raw bin index is non-decreasing in the
depth over `[depth_min, depth_max]` (indeed everywhere). -/
theorem bin_depths_endpoints (depth_min depth_max : ℝ) (num_bins : ℕ)
    (h1 : depth_min < depth_max) (h2 : 1 ≤ num_bins) :
    (bin_depths [.fin depth_min] "UD" depth_min depth_max num_bins false
        = .ok (.inl [.fin 0])
      ∧ bin_depths [.fin depth_max] "UD" depth_min depth_max num_bins false
        = .ok (.inl [.fin num_bins]))
    ∧ (bin_depths [.fin depth_min] "LID" depth_min depth_max num_bins false
        = .ok (.inl [.fin 0])
      ∧ bin_depths [.fin depth_max] "LID" depth_min depth_max num_bins false
        = .ok (.inl [.fin num_bins]))
    ∧ (-1 < depth_min →
      bin_depths [.fin depth_min] "SID" depth_min depth_max num_bins false
        = .ok (.inl [.fin 0])
      ∧ bin_depths [.fin depth_max] "SID" depth_min depth_max num_bins false
        = .ok (.inl [.fin num_bins]))
    ∧ (∀ d1 d2 : ℝ, depth_min ≤ d1 → d1 ≤ d2 → d2 ≤ depth_max →
      (udElem depth_min depth_max num_bins (.fin d1)).leP
        (udElem depth_min depth_max num_bins (.fin d2))) := by
  have hn : (0:ℝ) < num_bins := by exact_mod_cast Nat.pos_of_ne_zero (by omega)
  have hsub : (0:ℝ) < depth_max - depth_min := by linarith
  refine ⟨⟨?_, ?_⟩, ⟨?_, ?_⟩, fun hlo => ⟨?_, ?_⟩, fun d1 d2 ha hb hc => ?_⟩
  · rw [bin_depths_of_raw_false _ _ _ _ _ _ (rawIndices_UD _ _ _ _ (by omega)),
      List.map_cons, List.map_nil, udElem_fin _ _ _ h1 h2, spec_ud_index_at_min]
  · rw [bin_depths_of_raw_false _ _ _ _ _ _ (rawIndices_UD _ _ _ _ (by omega)),
      List.map_cons, List.map_nil, udElem_fin _ _ _ h1 h2,
      spec_ud_index_at_max _ _ _ h1 h2]
  · rw [bin_depths_of_raw_false _ _ _ _ _ _ (rawIndices_LID _ _ _ _ (by omega)),
      List.map_cons, List.map_nil,
      lidElem_fin _ _ _ h1 h2 _ (by rw [sub_self]; norm_num),
      spec_lid_index_at_min]
  · have harg : (0:ℝ) ≤ 1 + 8 * (depth_max - depth_min) /
        (2 * (depth_max - depth_min) / ((num_bins : ℝ) * (1 + num_bins))) := by
      rw [spec_lid_arg_at_max _ _ _ h1 h2]
      positivity
    rw [bin_depths_of_raw_false _ _ _ _ _ _ (rawIndices_LID _ _ _ _ (by omega)),
      List.map_cons, List.map_nil, lidElem_fin _ _ _ h1 h2 _ harg,
      spec_lid_index_at_max _ _ _ h1 h2]
  · have hmin : (0:ℝ) < 1 + depth_min := by linarith
    rw [bin_depths_of_raw_false _ _ _ _ _ _
        (rawIndices_SID _ _ _ _ hmin (by linarith)),
      List.map_cons, List.map_nil, sidElem_fin _ _ _ h1 hmin _ hmin,
      spec_sid_index_at_min]
  · have hmin : (0:ℝ) < 1 + depth_min := by linarith
    rw [bin_depths_of_raw_false _ _ _ _ _ _
        (rawIndices_SID _ _ _ _ hmin (by linarith)),
      List.map_cons, List.map_nil, sidElem_fin _ _ _ h1 hmin _ (by linarith),
      spec_sid_index_at_max _ _ _ h1 hmin]
  · rw [udElem_fin _ _ _ h1 h2, udElem_fin _ _ _ h1 h2]
    show spec_ud_index depth_min depth_max num_bins d1
      ≤ spec_ud_index depth_min depth_max num_bins d2
    rw [spec_ud_index, spec_ud_index]
    exact (div_le_div_iff_of_pos_right (div_pos hsub hn)).mpr (by linarith)

/-- C6 counterexample: at `depth_min = -3 < 1 = depth_max`, `num_bins = 1`,
mode SID, the depth entry equal to `depth_max` does not yield bin index
`num_bins`: the scalar `math.log(1 + depth_min) = math.log(-2)` call raises
`ValueError`, so `bin_depths` fails and returns no index at all, although the
claim's hypotheses (`depth_min < depth_max`, `num_bins >= 1`, supported mode)
all hold. -/
theorem bin_depths_endpoints_counterexample :
    ((-3:ℝ) < 1 ∧ (1:ℕ) ≤ 1 ∧ "SID" ∈ supportedModes)
    ∧ bin_depths [.fin 1] "SID" (-3) 1 1 false = .error .domainError := by
  refine ⟨⟨by norm_num, le_refl 1, by decide⟩, ?_⟩
  have hraw : rawIndices "SID" (-3) 1 1 [.fin 1] = .error .domainError := by
    rw [rawIndices, if_neg (by decide), if_neg (by decide), if_pos rfl,
      if_neg (by norm_num)]
  exact (bin_depths_of_raw_error _ _ _ _ _ _ hraw).2

/-- Witness for the amended C6 at `depth_min = 0`, `depth_max = 1`,
`num_bins = 1`. -/
theorem bin_depths_endpoints_witness :
    ((0:ℝ) < 1 ∧ (1:ℕ) ≤ 1 ∧ (-1:ℝ) < 0)
    ∧ bin_depths [.fin 0] "UD" 0 1 1 false = .ok (.inl [.fin 0])
    ∧ bin_depths [.fin 1] "UD" 0 1 1 false = .ok (.inl [.fin 1])
    ∧ bin_depths [.fin 1] "SID" 0 1 1 false = .ok (.inl [.fin 1]) := by
  have h := bin_depths_endpoints 0 1 1 (by norm_num) (by norm_num)
  refine ⟨⟨by norm_num, by norm_num, by norm_num⟩, ?_, ?_, ?_⟩
  · simpa using h.1.1
  · simpa using h.1.2
  · simpa using (h.2.2.1 (by norm_num)).2

theorem specTargetElem_bounds (n : ℕ) (p : PFloat) :
    0 ≤ specTargetElem n p ∧ specTargetElem n p ≤ (n : ℤ) := by
  cases p with
  | fin x =>
      by_cases hx : x < 0 ∨ (n : ℝ) < x
      · rw [specTargetElem, if_pos hx]
        exact ⟨Int.natCast_nonneg n, le_refl _⟩
      · push_neg at hx
        rw [specTargetElem, if_neg (by push_neg; exact hx),
          PFloat.truncInt_fin_nonneg _ hx.1]
        constructor
        · exact Int.floor_nonneg.mpr hx.1
        · calc ⌊x⌋ ≤ ⌊(n : ℝ)⌋ := Int.floor_le_floor hx.2
            _ = (n : ℤ) := Int.floor_natCast n
  | nan => exact ⟨Int.natCast_nonneg n, le_refl _⟩
  | inf => exact ⟨Int.natCast_nonneg n, le_refl _⟩
  | ninf => exact ⟨Int.natCast_nonneg n, le_refl _⟩

/-- C10: for every supported mode and every input depth map - including
negative, beyond-range and non-finite entries - whenever `bin_depths` with
`target=True` returns a value, every entry of it is an integer in the closed
range `[0, num_bins]`. -/
theorem bin_depths_target_range (dm : List PFloat) (mode : String)
    (depth_min depth_max : ℝ) (num_bins : ℕ) (_hmode : mode ∈ supportedModes)
    (out : List ℤ)
    (h : bin_depths dm mode depth_min depth_max num_bins true = .ok (.inr out)) :
    ∀ v ∈ out, 0 ≤ v ∧ v ≤ (num_bins : ℤ) := by
  cases hr : rawIndices mode depth_min depth_max num_bins dm with
  | error e =>
      exact absurd (((bin_depths_of_raw_error _ _ _ _ _ _ hr).1).symm.trans h) (by simp)
  | ok raw =>
      have hout : raw.map (specTargetElem num_bins) = out := by
        have := (bin_depths_of_raw_true _ _ _ _ _ _ hr).symm.trans h
        rw [castInt64_maskedFill] at this
        simpa using this
      intro v hv
      rw [← hout] at hv
      obtain ⟨p, _, rfl⟩ := List.mem_map.mp hv
      exact specTargetElem_bounds num_bins p

/-- Witness for C10: a NaN depth entry, mode UD, `num_bins = 5`: the target
output is `[5]`, inside `[0, 5]`. -/
theorem bin_depths_target_range_witness :
    ("UD" ∈ supportedModes
      ∧ bin_depths [PFloat.nan] "UD" 0 10 5 true = .ok (.inr [(5:ℤ)]))
    ∧ ∀ v ∈ [(5:ℤ)], 0 ≤ v ∧ v ≤ (5:ℤ) := by
  have hraw : rawIndices "UD" 0 10 5 [PFloat.nan] = .ok [PFloat.nan] := by
    rw [rawIndices_UD _ _ _ _ (by norm_num)]
    rfl
  have h : bin_depths [PFloat.nan] "UD" 0 10 5 true = .ok (.inr [(5:ℤ)]) := by
    rw [bin_depths_of_raw_true _ _ _ _ _ _ hraw, castInt64_maskedFill]
    simp [specTargetElem]
  exact ⟨⟨by decide, h⟩,
    fun v hv => bin_depths_target_range _ _ _ _ _ (by decide) _ h v hv⟩

theorem PFloat.divC_zero_zero : (PFloat.fin 0).divC 0 = .nan := by
  simp [PFloat.divC]

theorem normalize_coordsVec_fin (c : Fin 3 → ℝ) (shape : Fin 3 → ℝ) (i : Fin 3)
    (hs : shape (flip3 i) - 1 ≠ 0) :
    normalize_coordsVec (fun j => .fin (c j)) shape i
      = .fin (c i / (shape (flip3 i) - 1) * 2 - 1) := by
  simp only [normalize_coordsVec]
  rw [PFloat.divC_fin _ _ hs, PFloat.mulC_fin, PFloat.addC_fin]
  congr 1
  ring

/-- C4 amended: `normalize_coords` reverses the three shape entries and
returns `(coords / (shape - 1)) * 2 - 1` elementwise; provided every shape
entry exceeds 1 (so that `shape - 1` is positive; with a shape entry equal
to 1 the division `0 / 0` produces NaN instead of the documented values), a
coordinate equal to 0 maps to exactly -1, a coordinate equal to the
(reversed) `shape - 1` maps to exactly 1, and no clamping is applied:
coordinates outside `[0, shape - 1]` yield outputs outside `[-1, 1]`. -/
theorem normalize_coords_formula (c : Fin 3 → ℝ) (shape : Fin 3 → ℝ)
    (hs : ∀ i, 1 < shape i) :
    (∀ i, normalize_coordsVec (fun j => .fin (c j)) shape i
        = .fin (c i / (shape (flip3 i) - 1) * 2 - 1))
    ∧ (∀ i, c i = 0 → normalize_coordsVec (fun j => .fin (c j)) shape i = .fin (-1))
    ∧ (∀ i, c i = shape (flip3 i) - 1 →
        normalize_coordsVec (fun j => .fin (c j)) shape i = .fin 1)
    ∧ (∀ i, c i < 0 ∨ shape (flip3 i) - 1 < c i →
        ∃ v, normalize_coordsVec (fun j => .fin (c j)) shape i = .fin v
          ∧ (v < -1 ∨ 1 < v)) := by
  have hpos : ∀ i, 0 < shape (flip3 i) - 1 := fun i => by have := hs (flip3 i); linarith
  refine ⟨fun i => normalize_coordsVec_fin c shape i (ne_of_gt (hpos i)),
    fun i hc => ?_, fun i hc => ?_, fun i hc => ?_⟩
  · rw [normalize_coordsVec_fin c shape i (ne_of_gt (hpos i)), hc]
    norm_num
  · rw [normalize_coordsVec_fin c shape i (ne_of_gt (hpos i)), hc,
      div_self (ne_of_gt (hpos i))]
    norm_num
  · refine ⟨_, normalize_coordsVec_fin c shape i (ne_of_gt (hpos i)), ?_⟩
    rcases hc with hc | hc
    · left
      have hneg : c i / (shape (flip3 i) - 1) < 0 := div_neg_of_neg_of_pos hc (hpos i)
      linarith
    · right
      have hgt : 1 < c i / (shape (flip3 i) - 1) := (one_lt_div (hpos i)).mpr (by linarith)
      linarith

/-- C4 counterexample: with `shape = (1, 1, 1)` (a legal 3-element shape
vector) a coordinate equal to 0 does not map to -1: the division `0 / 0`
produces NaN, so the output entry is NaN, not `-1`. -/
theorem normalize_coords_counterexample :
    normalize_coordsVec (fun _ => .fin 0) (fun _ => 1) 0 = PFloat.nan
    ∧ PFloat.nan ≠ PFloat.fin (-1) := by
  constructor
  · simp only [normalize_coordsVec]
    rw [show ((1:ℝ) - 1) = 0 by norm_num, PFloat.divC_zero_zero]
    rfl
  · intro hcontra
    exact PFloat.noConfusion hcontra

/-- Witness for the amended C4 at `shape = (3, 3, 3)`, coordinate 2. -/
theorem normalize_coords_formula_witness :
    (∀ i : Fin 3, (1:ℝ) < (fun _ : Fin 3 => (3:ℝ)) i)
    ∧ (∀ i : Fin 3, normalize_coordsVec (fun _ => .fin 2) (fun _ => 3) i
        = .fin ((2:ℝ) / (3 - 1) * 2 - 1)) := by
  have h := normalize_coords_formula (fun _ => 2) (fun _ => 3) (fun _ => by norm_num)
  exact ⟨fun _ => by norm_num, fun i => h.1 i⟩

theorem matVec_toHomog (P : Mat34) (p : Fin 3 → ℚ) (i : Fin 3) :
    matVec P (toHomog p) i = P i 0 * p 0 + P i 1 * p 1 + P i 2 * p 2 + P i 3 := by
  rw [matVec, Fin.sum_univ_four]
  simp [toHomog, show ¬ (((3 : Fin 4) : ℕ) < 3) from by decide]

/-- C5: for projection matrices (B, 3, 4) and points (B, N, 3), the
`bmm=False` path appends a homogeneous 1 to each point, applies the batch's
projection matrix to each of its points (the broadcast of
`project.unsqueeze(1)` against the points with a trailing singleton axis),
and returns depth equal to the third coordinate of the transformed point
minus `project[..., 2, 3]`, and image coordinates equal to the first two
coordinates of the transformed point each divided by its third coordinate. -/
theorem project_to_image_formula {B N : ℕ} (project : Fin B → Mat34)
    (points : Fin B → Fin N → (Fin 3 → ℚ)) (b : Fin B) (k : Fin N) :
    (project_to_image project points).2 b k
      = (project b 2 0 * points b k 0 + project b 2 1 * points b k 1
         + project b 2 2 * points b k 2 + project b 2 3) - project b 2 3
    ∧ ∀ i : Fin 2, (project_to_image project points).1 b k i
      = (project b i.castSucc 0 * points b k 0 + project b i.castSucc 1 * points b k 1
         + project b i.castSucc 2 * points b k 2 + project b i.castSucc 3)
        / (project b 2 0 * points b k 0 + project b 2 1 * points b k 1
           + project b 2 2 * points b k 2 + project b 2 3) := by
  constructor
  · show matVec (project b) (toHomog (points b k)) 2 - project b 2 3 = _
    rw [matVec_toHomog]
  · intro i
    show matVec (project b) (toHomog (points b k)) i.castSucc
        / matVec (project b) (toHomog (points b k)) 2 = _
    rw [matVec_toHomog, matVec_toHomog]

theorem matVec_idMat34 (p : Fin 3 → ℚ) (i : Fin 3) :
    matVec idMat34 (toHomog p) i = p i := by
  fin_cases i <;>
    (rw [matVec_toHomog]
     norm_num [idMat34, show ((3 : Fin 4) : ℕ) = 3 from rfl]
     try rfl)

/-- C7: with the 3x4 projection matrix whose left 3x3 block is the identity
and whose translation column is zero, `project_to_image` returns depth equal
to each point's third coordinate and image coordinates equal to the point's
x and y divided by that third coordinate. -/
theorem project_to_image_identity {B N : ℕ} (points : Fin B → Fin N → (Fin 3 → ℚ))
    (b : Fin B) (k : Fin N) (_h : points b k 2 ≠ 0) :
    (project_to_image (fun _ => idMat34) points).2 b k = points b k 2
    ∧ (project_to_image (fun _ => idMat34) points).1 b k 0
        = points b k 0 / points b k 2
    ∧ (project_to_image (fun _ => idMat34) points).1 b k 1
        = points b k 1 / points b k 2 := by
  refine ⟨?_, ?_, ?_⟩
  · show matVec idMat34 (toHomog (points b k)) 2 - idMat34 2 3 = _
    rw [matVec_idMat34]
    norm_num [idMat34, show ((3 : Fin 4) : ℕ) = 3 from rfl]
  · show matVec idMat34 (toHomog (points b k)) (0 : Fin 2).castSucc
        / matVec idMat34 (toHomog (points b k)) 2 = _
    rw [matVec_idMat34, matVec_idMat34, Fin.castSucc_zero]
  · show matVec idMat34 (toHomog (points b k)) (1 : Fin 2).castSucc
        / matVec idMat34 (toHomog (points b k)) 2 = _
    rw [matVec_idMat34, matVec_idMat34, Fin.castSucc_one]

/-- Witness for C7 at the single point (1, 2, 3). -/
theorem project_to_image_identity_witness :
    ((![1, 2, 3] : Fin 3 → ℚ) 2 ≠ 0)
    ∧ (project_to_image (fun _ : Fin 1 => idMat34)
        (fun _ _ : Fin 1 => (![1, 2, 3] : Fin 3 → ℚ))).2 0 0
      = (![1, 2, 3] : Fin 3 → ℚ) 2
    ∧ (project_to_image (fun _ : Fin 1 => idMat34)
        (fun _ _ : Fin 1 => (![1, 2, 3] : Fin 3 → ℚ))).1 0 0 0
      = (![1, 2, 3] : Fin 3 → ℚ) 0 / (![1, 2, 3] : Fin 3 → ℚ) 2 := by
  have h : (![1, 2, 3] : Fin 3 → ℚ) 2 ≠ 0 := by norm_num
  have := project_to_image_identity (fun _ _ : Fin 1 => (![1, 2, 3] : Fin 3 → ℚ)) 0 0 h
  exact ⟨h, this.1, this.2.1⟩

theorem length_flatMap_replicate {α : Type} (r : ℕ) (l : List α) :
    (l.flatMap fun a => List.replicate r a).length = l.length * r := by
  induction l with
  | nil => simp
  | cons a t ih =>
      simp only [List.flatMap_cons, List.length_append, List.length_replicate,
        List.length_cons, ih]
      ring

/-- C8: in the `bmm=True` path, when the flattened batch count of the points
is not an exact multiple of the flattened batch count of the projection
matrices, the call fails with a shape error at the batched matrix multiply:
the floor-divided repeat factor leaves the repeated projection batch shorter
than the points batch, `torch.bmm` rejects the mismatch, and no value is
produced from a silently truncated repeat count. -/
theorem project_to_image_bmm_mismatch (project : List Mat34)
    (points : List (List (Fin 4 → ℚ)))
    (h : ¬ project.length ∣ points.length) :
    project_to_image_bmm project points = .error .shapeMismatch := by
  have hlen : (project.flatMap fun P =>
      List.replicate (points.length / project.length) P).length ≠ points.length := by
    rw [length_flatMap_replicate]
    intro hcontra
    exact h ⟨points.length / project.length, hcontra.symm⟩
  simp only [project_to_image_bmm]
  rw [if_neg hlen]

/-- Witness for C8: two projection matrices, three point rows; 2 does not
divide 3, so the call errors. -/
theorem project_to_image_bmm_mismatch_witness :
    ¬ ([fun _ _ => 0, fun _ _ => 0] : List Mat34).length ∣
        ([[], [], []] : List (List (Fin 4 → ℚ))).length
    ∧ project_to_image_bmm [fun _ _ => 0, fun _ _ => 0] [[], [], []]
        = .error .shapeMismatch := by
  refine ⟨by decide, project_to_image_bmm_mismatch _ _ (by decide)⟩

/-- C9 amended: `bin_depths` never mutates the caller-supplied depth-map
buffer; the in-place masking step of the `target=True` branch writes to the
freshly allocated `indices` tensor produced by the mode's arithmetic, so any
buffer that existed before the call - the depth map included - is unchanged
afterwards.  (`project_to_image` and `normalize_coords` contain no in-place
operation at all: every torch operation they invoke allocates its result, as
reflected in the functional embeddings above.) -/
theorem bin_depthsS_preserves (s : Store) (dm : ℕ) (hdm : dm < s.length)
    (mode : String) (depth_min depth_max : ℝ) (num_bins : ℕ) (target : Bool)
    (s2 : Store) (res : List PFloat ⊕ List ℤ)
    (h : bin_depthsS s dm mode depth_min depth_max num_bins target = .ok (s2, res)) :
    s2.getD dm [] = s.getD dm [] := by
  rw [bin_depthsS] at h
  cases hr : rawIndices mode depth_min depth_max num_bins (s.getD dm []) with
  | error e =>
      rw [hr] at h
      exact absurd h (by simp)
  | ok idx =>
      rw [hr] at h
      cases target with
      | false =>
          simp only [Bool.false_eq_true, if_false, Except.ok.injEq, Prod.mk.injEq] at h
          rw [← h.1, List.getD_eq_getElem?_getD, List.getD_eq_getElem?_getD,
            List.getElem?_append_left hdm]
      | true =>
          simp only [if_true, Except.ok.injEq, Prod.mk.injEq] at h
          rw [← h.1, List.getD_eq_getElem?_getD, List.getD_eq_getElem?_getD,
            List.getElem?_set_ne (ne_of_gt hdm), List.getElem?_append_left hdm,
            List.getD_eq_getElem?_getD]

/-- C9 counterexample: a depth map whose single entry is -5 is stored at
reference 0; `bin_depths` with mode UD, `depth_min = 0`, `depth_max = 10`,
`num_bins = 5`, `target=True` computes raw index -2.5, and the mask fires
(the integer result is the sentinel 5, not a truncation of -2.5) - yet the
final store still holds the original `[-5]` at reference 0: the masking was
applied to the freshly allocated indices tensor (reference 1), not in place
on the caller-supplied depth-map buffer as the claim states. -/
theorem bin_depthsS_counterexample :
    bin_depthsS [[PFloat.fin (-5)]] 0 "UD" 0 10 5 true
      = .ok ([[PFloat.fin (-5)], [PFloat.fin 5]], .inr [(5:ℤ)])
    ∧ ([[PFloat.fin (-5)], [PFloat.fin 5]] : Store).getD 0 [] = [PFloat.fin (-5)]
    ∧ [PFloat.fin (-5)] ≠ [PFloat.fin 5] := by
  have hraw : rawIndices "UD" 0 10 5 [PFloat.fin (-5)] = .ok [PFloat.fin (-2.5)] := by
    rw [rawIndices_UD _ _ _ _ (by norm_num), List.map_cons, List.map_nil,
      udElem_fin _ _ _ (by norm_num) (by norm_num), spec_ud_index]
    norm_num
  have hmask : maskedFill 5 [PFloat.fin (-2.5)] = [PFloat.fin ((5:ℕ) : ℝ)] := by
    rw [maskedFill, List.map_cons, List.map_nil,
      if_pos (Or.inl (show PFloat.ltR (.fin (-2.5)) 0 from by norm_num [PFloat.ltR]))]
  have hcast : castInt64 [PFloat.fin ((5:ℕ) : ℝ)] = [(5:ℤ)] := by
    rw [castInt64, List.map_cons, List.map_nil, truncInt_natCast]
    norm_num
  refine ⟨?_, rfl, ?_⟩
  · have hget : ([[PFloat.fin (-5)]] : Store).getD 0 [] = [PFloat.fin (-5)] := rfl
    rw [bin_depthsS, hget, hraw]
    simp only [if_true]
    have h1 : (([[PFloat.fin (-5)]] : Store) ++ [[PFloat.fin (-2.5)]]).getD
        ([[PFloat.fin (-5)]] : Store).length [] = [PFloat.fin (-2.5)] := rfl
    rw [h1]
    have h2 : (([[PFloat.fin (-5)]] : Store) ++ [[PFloat.fin (-2.5)]]).set
        ([[PFloat.fin (-5)]] : Store).length [PFloat.fin ((5:ℕ) : ℝ)]
        = [[PFloat.fin (-5)], [PFloat.fin ((5:ℕ) : ℝ)]] := rfl
    rw [hmask, h2]
    have h3 : ([[PFloat.fin (-5)], [PFloat.fin ((5:ℕ) : ℝ)]] : Store).getD
        ([[PFloat.fin (-5)]] : Store).length [] = [PFloat.fin ((5:ℕ) : ℝ)] := rfl
    rw [h3, hcast]
    norm_num
  · intro hcontra
    have := List.head_eq_of_cons_eq hcontra
    have h5 : (-5 : ℝ) = 5 := by
      injection this
    norm_num at h5

/-- Witness for the amended C9: a store holding one (empty) depth map at
reference 0; after a `target=True` run, reference 0 is unchanged. -/
theorem bin_depthsS_preserves_witness :
    0 < ([[]] : Store).length
    ∧ ([[], []] : Store).getD 0 [] = ([[]] : Store).getD 0 [] := by
  have h : bin_depthsS [[]] 0 "UD" 0 10 5 true = .ok ([[], []], .inr []) := rfl
  exact ⟨by norm_num,
    bin_depthsS_preserves [[]] 0 (by norm_num) "UD" 0 10 5 true [[], []] (.inr []) h⟩

end TransformUtils
